import Mathlib

/-!
Verification of `tunes.py` (Lahgarn/tunes): a script that fetches tune
listings from thesession.org, parses them, lets the user pick a tune and a
setting through rofi, and pipes the ABC text through abcm2ps | ps2pdf into a
PDF viewer.

Python text is embedded as `List Char` (a Python `str` is a sequence of
characters); the helpers below reproduce the exact `str.split`, `str.strip`
and `int()` behaviour the script relies on.  HTML documents are abstracted by
the sequences of strings their fixed XPath queries return (XPath evaluation
is performed by the external lxml library); everything the script itself does
with those sequences is embedded faithfully.
-/

namespace Tunes

/-- Shorthand: the character sequence of a string literal. -/
def chars (s : String) : List Char := s.toList

/-- Python `str.split(sep)` for a one-character separator `c`:
splitting the empty string gives `[""]`, and every occurrence of `c`
starts a new field. -/
def splitOnChar (c : Char) : List Char → List (List Char)
  | [] => [[]]
  | x :: xs =>
    if x = c then [] :: splitOnChar c xs
    else
      match splitOnChar c xs with
      | [] => [[x]]
      | y :: ys => (x :: y) :: ys

/-- Python's notion of whitespace for `str.strip()` (ASCII part). -/
def isPySpace (c : Char) : Bool :=
  c == ' ' || c == '\t' || c == '\n' || c == '\x0b' || c == '\x0c' || c == '\r'

/-- Python `str.strip()`: remove leading and trailing whitespace. -/
def pyStrip (l : List Char) : List Char :=
  ((l.dropWhile isPySpace).reverse.dropWhile isPySpace).reverse

/-- Python `str.strip(c)` for a one-character argument: remove leading and
trailing occurrences of `c`. -/
def pyStripChar (c : Char) (l : List Char) : List Char :=
  ((l.dropWhile (fun x => x == c)).reverse.dropWhile (fun x => x == c)).reverse

/-- All-digit check and value, used to model Python `int()`. -/
def digitsToNat (l : List Char) : Nat :=
  l.foldl (fun acc c => acc * 10 + (c.toNat - 48)) 0

/-- Helper: `digitsToNat?` succeeds exactly on a nonempty run of ASCII digits. -/
def digitsToNat? (l : List Char) : Option Nat :=
  if l ≠ [] ∧ l.all (fun c => c.isDigit) then some (digitsToNat l) else none

/-- Python `int(s)` on the reply shapes the script receives from rofi: an
optional sign followed by digits.  (Python `int` additionally ignores
surrounding whitespace and underscores; those inputs do not occur in the
claims and are mapped to `none`, i.e. to a `ValueError`.) -/
def pyInt? (l : List Char) : Option Int :=
  match l with
  | '-' :: rest => (digitsToNat? rest).map fun n => -(n : Int)
  | '+' :: rest => (digitsToNat? rest).map fun n => (n : Int)
  | _ => (digitsToNat? l).map fun n => (n : Int)

/-- Embeds `Tune = namedtuple('Tune', ('name', 'id', 'type'))` (tunes.py line 40). -/
structure Tune where
  name : List Char
  id : List Char
  type : List Char
deriving DecidableEq

/-- Embeds `get_popular_tunes` extraction step (tunes.py lines 81-84): zip the three
XPath result sequences (name texts, `data-tuneid` attributes, type texts)
positionally into `Tune` records.  Python's `zip` truncates to the shortest
sequence. -/
def get_popular_tunes (names ids types : List (List Char)) : List Tune :=
  (names.zip (ids.zip types)).map fun p => ⟨p.1, p.2.1, p.2.2⟩

/-- Embeds `get_search_tunes` extraction step (tunes.py lines 92-95): same zip, but
the type texts first go through `s.strip('\n')`. -/
def get_search_tunes (names ids types : List (List Char)) : List Tune :=
  (names.zip (ids.zip (types.map (pyStripChar '\n')))).map fun p => ⟨p.1, p.2.1, p.2.2⟩

/-- The exceptions the embedded fragments of the script can raise. -/
inductive PyErr where
  /-- Case: `requests.exceptions.HTTPError` from `raise_for_status`, carrying the
  HTTP status code. -/
  | httpError (status : Nat)
  /-- Python `IndexError` (out-of-range sequence subscript). -/
  | indexError
deriving DecidableEq

instance {ε α : Type} [DecidableEq ε] [DecidableEq α] : DecidableEq (Except ε α) :=
  fun x y =>
    match x, y with
    | .ok a, .ok b =>
      if h : a = b then isTrue (h ▸ rfl) else isFalse (fun hh => h (Except.ok.inj hh))
    | .error a, .error b =>
      if h : a = b then isTrue (h ▸ rfl) else isFalse (fun hh => h (Except.error.inj hh))
    | .ok _, .error _ => isFalse (fun hh => Except.noConfusion hh)
    | .error _, .ok _ => isFalse (fun hh => Except.noConfusion hh)

/-- Embeds `TuneSetting = namedtuple('TuneSetting', ('id', 'meter', 'key', 'abc'))`
(tunes.py line 41). -/
structure TuneSetting where
  id : Option (List Char)
  meter : Option (List Char)
  key : Option (List Char)
  abc : List Char
deriving DecidableEq

/-- The mutable per-block state of the parsing loop in `get_tune_settings`
(tunes.py line 108): `s_id, s_meter, s_key, s_abc = None, None, None, []`. -/
structure BState where
  s_id : Option (List Char)
  s_meter : Option (List Char)
  s_key : Option (List Char)
  s_abc : List (List Char)
deriving DecidableEq

/-- The text before the first colon of a line: `line.split(':')[0]`. -/
def headSeg (l : List Char) : List Char :=
  (splitOnChar ':' l).headD []

/-- The text between the first and the second colon of a line (the whole
remainder when there is only one colon): `line.split(':')[1]`, when it
exists. -/
def seg1? (l : List Char) : Option (List Char) :=
  (splitOnChar ':' l).get? 1

/-- One iteration of the inner loop of `get_tune_settings`
(tunes.py lines 110-118): skip empty lines; on `ls = line.split(':')`,
`ls[0] == 'X'` stores `ls[1].strip()` as the id (`IndexError` when `ls` has
no second element), likewise `'M'` for the meter and `'K'` for the key; every
non-empty line is then appended to `s_abc`. -/
def procLine (st : BState) (line : List Char) : Except PyErr BState :=
  if line.isEmpty then .ok st
  else
    let ls := splitOnChar ':' line
    let step1 : Except PyErr BState :=
      if ls.headD [] = ['X'] then
        match ls.get? 1 with
        | none => .error .indexError
        | some v => .ok { st with s_id := some (pyStrip v) }
      else if ls.headD [] = ['M'] then
        match ls.get? 1 with
        | none => .error .indexError
        | some v => .ok { st with s_meter := some (pyStrip v) }
      else if ls.headD [] = ['K'] then
        match ls.get? 1 with
        | none => .error .indexError
        | some v => .ok { st with s_key := some (pyStrip v) }
      else .ok st
    step1.map fun st2 => { st2 with s_abc := st2.s_abc ++ [line] }

/-- Run `procLine` over the lines of a block, propagating any exception, as
the `for line in element.text_content().split('\n')` loop does. -/
def runLines : BState → List (List Char) → Except PyErr BState
  | st, [] => .ok st
  | st, l :: ls =>
    match procLine st l with
    | .error e => .error e
    | .ok st1 => runLines st1 ls

/-- Python `'\n'.join(ls)`. -/
def joinNL : List (List Char) → List Char
  | [] => []
  | [l] => l
  | l :: l2 :: ls => l ++ '\n' :: joinNL (l2 :: ls)

/-- Parse one notation block (the `text_content()` of one
`div[@class='notes']` element) into a `TuneSetting`
(tunes.py lines 108-119). -/
def parseBlock (text : List Char) : Except PyErr TuneSetting :=
  match runLines ⟨none, none, none, []⟩ (splitOnChar '\n' text) with
  | .error e => .error e
  | .ok st => .ok ⟨st.s_id, st.s_meter, st.s_key, joinNL st.s_abc⟩

/-- Embeds `get_tune_settings` extraction step (tunes.py lines 103-121): the
document is abstracted by the list of text contents of the elements its
XPath query returns; each is parsed into a `TuneSetting`, and an exception
raised inside the loop aborts the whole call. -/
def get_tune_settings : List (List Char) → Except PyErr (List TuneSetting)
  | [] => .ok []
  | b :: bs =>
    match parseBlock b with
    | .error e => .error e
    | .ok s =>
      match get_tune_settings bs with
      | .error e => .error e
      | .ok ss => .ok (s :: ss)

/-- Embeds `Response.raise_for_status()` of the requests library: raises `HTTPError`
exactly for the 4xx client-error and 5xx server-error status codes;
informational, success and redirect statuses pass through silently. -/
def raise_for_status (status : Nat) : Except PyErr Unit :=
  if 400 ≤ status ∧ status < 600 then .error (.httpError status) else .ok ()

/-- Embeds `get_popular_tunes` including the fetch (tunes.py lines 77-84):
`raise_for_status` runs on the response before any extraction. -/
def get_popular_tunes_fetched (status : Nat) (names ids types : List (List Char)) :
    Except PyErr (List Tune) :=
  match raise_for_status status with
  | .error e => .error e
  | .ok _ => .ok (get_popular_tunes names ids types)

/-- Embeds `get_search_tunes` including the fetch (tunes.py lines 88-95). -/
def get_search_tunes_fetched (status : Nat) (names ids types : List (List Char)) :
    Except PyErr (List Tune) :=
  match raise_for_status status with
  | .error e => .error e
  | .ok _ => .ok (get_search_tunes names ids types)

/-- Embeds `get_tune_settings` including the fetch (tunes.py lines 99-121). -/
def get_tune_settings_fetched (status : Nat) (blocks : List (List Char)) :
    Except PyErr (List TuneSetting) :=
  match raise_for_status status with
  | .error e => .error e
  | .ok _ => get_tune_settings blocks

/-- Outcome of `select_tune` / `select_setting` (tunes.py lines 156-189),
with each Python exit path as a constructor. -/
inductive SelResult (α : Type) where
  /-- Case: `exit(rofi_result.returncode)` on a non-zero rofi exit code. -/
  | exited (code : Int)
  /-- Case: `ValueError` from `int(...)` on an unparseable index field. -/
  | intError
  /-- Case: `SearchException(rofi_output[1])` carrying the new query text. -/
  | requery (q : List Char)
  /-- Case: `ValueError("Must select a valid setting!")`. -/
  | noSetting
  /-- Case: `IndexError` from a sequence subscript. -/
  | indexError
  /-- normal return of the chosen record. -/
  | selected (x : α)
deriving DecidableEq

/-- Embeds `select_tune` (tunes.py lines 156-171).  The rofi interaction is
abstracted by its observable result: the exit code and the captured stdout.
On exit code 0, `rofi_output = stdout.split(":")`; `int(rofi_output[0])`
gives the index; a negative index raises `SearchException(rofi_output[1])`;
otherwise `tunes[index]` is returned (raising `IndexError` when out of
range). -/
def select_tune (tunes : List Tune) (returncode : Int) (stdout : List Char) :
    SelResult Tune :=
  if returncode ≠ 0 then (.exited returncode : SelResult Tune)
  else
    let out := splitOnChar ':' stdout
    match pyInt? (out.headD []) with
    | none => .intError
    | some i =>
      if i < 0 then
        match out.get? 1 with
        | none => .indexError
        | some t => .requery t
      else
        match tunes.get? i.toNat with
        | none => .indexError
        | some t => .selected t

/-- Embeds `select_setting` (tunes.py lines 174-189): identical to `select_tune`
except that a negative index raises `ValueError("Must select a valid
setting!")` instead of a `SearchException`. -/
def select_setting (settings : List TuneSetting) (returncode : Int)
    (stdout : List Char) : SelResult TuneSetting :=
  if returncode ≠ 0 then (.exited returncode : SelResult TuneSetting)
  else
    let out := splitOnChar ':' stdout
    match pyInt? (out.headD []) with
    | none => .intError
    | some i =>
      if i < 0 then .noSetting
      else
        match settings.get? i.toNat with
        | none => .indexError
        | some t => .selected t

/-- One outcome of one iteration of the `while not tune` loop of
`search_and_display` (tunes.py lines 206-212). -/
inductive LoopOutcome where
  /-- Case: `select_tune` returned a tune: the loop ends. -/
  | found (t : Tune)
  /-- Case: `SearchException` was caught: the loop runs again with a new query. -/
  | again (q : List Char)
  /-- rofi exited non-zero: the whole program exits with that code. -/
  | exited (code : Int)
  /-- any other uncaught exception escapes `search_and_display`. -/
  | crashed
deriving DecidableEq

/-- One iteration of the search loop: fetch the search page for `q` (the
environment `env` abstracts the remote site, mapping a query to the three
XPath result sequences of its result page), extract, and run `select_tune`
on the rofi observation for this round.  Only `SearchException` is caught
(tunes.py line 211). -/
def search_iter (env : List Char → List (List Char) × List (List Char) × List (List Char))
    (q : List Char) (rc : Int) (out : List Char) : LoopOutcome :=
  match select_tune (get_search_tunes (env q).1 (env q).2.1 (env q).2.2) rc out with
  | .selected t => .found t
  | .requery q2 => .again q2
  | .exited c => .exited c
  | _ => .crashed

/-- Two iterations of the search loop: when the first round raises
`SearchException`, the second round runs with the query it carried. -/
def search_iter2 (env : List Char → List (List Char) × List (List Char) × List (List Char))
    (q : List Char) (rc1 : Int) (out1 : List Char) (rc2 : Int) (out2 : List Char) :
    LoopOutcome :=
  match search_iter env q rc1 out1 with
  | .again q2 => search_iter env q2 rc2 out2
  | r => r

/-- UTF-8 encoding of one character (`str.encode('utf-8')`, per code
point). -/
def utf8EncodeChar (c : Char) : List Nat :=
  let n := c.toNat
  if n < 0x80 then [n]
  else if n < 0x800 then [0xC0 + n / 0x40, 0x80 + n % 0x40]
  else if n < 0x10000 then
    [0xE0 + n / 0x1000, 0x80 + (n / 0x40) % 0x40, 0x80 + n % 0x40]
  else
    [0xF0 + n / 0x40000, 0x80 + (n / 0x1000) % 0x40, 0x80 + (n / 0x40) % 0x40,
     0x80 + n % 0x40]

/-- Embeds `abc.encode('utf-8')`. -/
def utf8Encode (s : List Char) : List Nat :=
  (s.map utf8EncodeChar).flatten

/-- Observable process effects of `display_abc`.  Processes are numbered in
spawn order; `spawn pid cmd out` records that the new process's stdout is
connected to the stdin pipe of process `out` (when present). -/
inductive Ev where
  | spawn (pid : Nat) (cmd : List String) (stdoutToStdinOf : Option Nat)
  | write (pid : Nat) (bytes : List Nat)
  | closeStdin (pid : Nat)
  | wait (pid : Nat)
deriving DecidableEq

/-- Trace-accumulating state for the process model. -/
structure PSt where
  events : List Ev
  next : Nat

/-- Append one effect to the trace. -/
def emitEv (e : Ev) : StateM PSt Unit :=
  modify fun s => { s with events := s.events ++ [e] }

/-- Embeds `subprocess.Popen(cmd, stdin=PIPE, stdout=...)`: records the spawn and
returns the process handle. -/
def popen (cmd : List String) (stdoutTo : Option Nat) : StateM PSt Nat := do
  let s ← get
  set (PSt.mk (s.events ++ [Ev.spawn s.next cmd stdoutTo]) (s.next + 1))
  pure s.next

/-- Embeds `Popen.communicate(input=...)` when only stdin is a pipe: write the input
(when given) to the process's stdin, close that stdin, then wait for the
process to terminate. -/
def communicate (pid : Nat) (input : Option (List Nat)) : StateM PSt Unit := do
  match input with
  | some d => emitEv (Ev.write pid d)
  | none => pure ()
  emitEv (Ev.closeStdin pid)
  emitEv (Ev.wait pid)

/-- Embeds `PDF_VIEWER_CMD = ['zathura', '-']` (tunes.py line 47). -/
def PDF_VIEWER_CMD : List String := ["zathura", "-"]

/-- Embeds `PS2PDF_CMD = ['ps2pdf', '-', '-']` (tunes.py line 49). -/
def PS2PDF_CMD : List String := ["ps2pdf", "-", "-"]

/-- Embeds `ABC2PS_CMD = ['abcm2ps', '-', '-O', '-']` (tunes.py line 51). -/
def ABC2PS_CMD : List String := ["abcm2ps", "-", "-O", "-"]

/-- Embeds `display_abc` (tunes.py lines 195-201) as a process program: spawn the
viewer, spawn ps2pdf feeding it, spawn abcm2ps feeding ps2pdf, send the
UTF-8-encoded ABC text through `abcm2ps.communicate`, drain with
`ps2pdf.communicate()`, and finally `pdf_viewer.stdin.close()`. -/
def display_abc_prog (abc : List Char) : StateM PSt Unit := do
  let pdf_viewer ← popen PDF_VIEWER_CMD none
  let ps2pdf ← popen PS2PDF_CMD (some pdf_viewer)
  let abcm2ps ← popen ABC2PS_CMD (some ps2pdf)
  communicate abcm2ps (some (utf8Encode abc))
  communicate ps2pdf none
  emitEv (Ev.closeStdin pdf_viewer)

/-- The effect trace of `display_abc`. -/
def display_abc (abc : List Char) : List Ev :=
  ((display_abc_prog abc).run (PSt.mk [] 0)).2.events

example : chars "ab" = ['a', 'b'] := by decide

example : splitOnChar ':' (chars "X:1:2") = [chars "X", chars "1", chars "2"] := by decide

example : splitOnChar ':' [] = [[]] := by decide

example : pyInt? (chars "-1") = some (-1) := by decide

example : pyStripChar '\n' (chars "\nreel\n\n") = chars "reel" := by decide

example :
    get_search_tunes [chars "a"] [chars "1"] [chars "reel\n"]
      = [⟨chars "a", chars "1", chars "reel"⟩] := by decide

example :
    get_tune_settings [chars "X:1\nM:4/4\nK:Edor\nA B c d|"]
      = .ok [⟨some (chars "1"), some (chars "4/4"), some (chars "Edor"),
             chars "X:1\nM:4/4\nK:Edor\nA B c d|"⟩] := by decide

example : get_tune_settings [chars "X"] = .error .indexError := by decide

example : get_tune_settings [chars "X:1:2"]
    = .ok [⟨some (chars "1"), none, none, chars "X:1:2"⟩] := by decide

example : select_tune [] 0 (chars "-1:a:b") = .requery (chars "a") := by decide

example : select_setting [] 0 (chars "-1:a:b") = .noSetting := by decide

example : select_tune [⟨chars "a", chars "1", chars "r"⟩] 0 (chars "0:x")
    = .selected ⟨chars "a", chars "1", chars "r"⟩ := by decide

example : select_tune [⟨chars "a", chars "1", chars "r"⟩] 0 (chars "1:x")
    = .indexError := by decide

example : get_search_tunes_fetched 304 [] [] [] = .ok [] := by decide

example : get_tune_settings_fetched 404 [chars "X"] = .error (.httpError 404) := by
  decide

example :
    display_abc (chars "x")
      = [Ev.spawn 0 PDF_VIEWER_CMD none,
         Ev.spawn 1 PS2PDF_CMD (some 0),
         Ev.spawn 2 ABC2PS_CMD (some 1),
         Ev.write 2 (utf8Encode (chars "x")),
         Ev.closeStdin 2,
         Ev.wait 2,
         Ev.closeStdin 1,
         Ev.wait 1,
         Ev.closeStdin 0] := by decide

example (abc : List Char) :
    display_abc abc
      = [Ev.spawn 0 PDF_VIEWER_CMD none,
         Ev.spawn 1 PS2PDF_CMD (some 0),
         Ev.spawn 2 ABC2PS_CMD (some 1),
         Ev.write 2 (utf8Encode abc),
         Ev.closeStdin 2,
         Ev.wait 2,
         Ev.closeStdin 1,
         Ev.wait 1,
         Ev.closeStdin 0] := rfl

/-! ### Lemmas about `splitOnChar` -/

theorem splitOnChar_ne_nil (c : Char) (l : List Char) : splitOnChar c l ≠ [] := by
  induction l with
  | nil => simp [splitOnChar]
  | cons x xs ih =>
    simp only [splitOnChar]
    split
    · exact fun h => List.noConfusion h
    · split
      · exact fun h => List.noConfusion h
      · exact fun h => List.noConfusion h

theorem splitOnChar_of_not_mem {c : Char} {l : List Char} (h : c ∉ l) :
    splitOnChar c l = [l] := by
  induction l with
  | nil => rfl
  | cons x xs ih =>
    have hx : ¬ x = c := by
      rintro rfl
      exact h (List.mem_cons_self x xs)
    have hxs : c ∉ xs := fun hh => h (List.mem_cons_of_mem _ hh)
    simp [splitOnChar, hx, ih hxs]

theorem splitOnChar_append {c : Char} {a : List Char} (h : c ∉ a) (b : List Char) :
    splitOnChar c (a ++ c :: b) = a :: splitOnChar c b := by
  induction a with
  | nil => simp [splitOnChar]
  | cons x xs ih =>
    have hx : ¬ x = c := by
      rintro rfl
      exact h (List.mem_cons_self x xs)
    have hxs : c ∉ xs := fun hh => h (List.mem_cons_of_mem _ hh)
    simp [splitOnChar, hx, ih hxs]

theorem splitOnChar_headD {c : Char} (l : List Char) :
    (splitOnChar c l).headD [] = l.takeWhile (fun x => x != c) := by
  induction l with
  | nil => rfl
  | cons x xs ih =>
    by_cases hx : x = c
    · subst hx
      simp [splitOnChar]
    · simp only [splitOnChar, if_neg hx]
      cases h : splitOnChar c xs with
      | nil => exact absurd h (splitOnChar_ne_nil c xs)
      | cons y ys =>
        rw [h] at ih
        simp only [List.headD_cons] at ih
        simp [List.takeWhile_cons, hx, ih]

theorem splitOnChar_get?_zero {c : Char} (l : List Char) :
    (splitOnChar c l).get? 0 = some (l.takeWhile (fun x => x != c)) := by
  cases h : splitOnChar c l with
  | nil => exact absurd h (splitOnChar_ne_nil c l)
  | cons y ys =>
    have h2 := @splitOnChar_headD c l
    rw [h] at h2
    simp only [List.headD_cons] at h2
    simp [h2]

theorem not_mem_of_mem_splitOnChar {c : Char} {l p : List Char}
    (h : p ∈ splitOnChar c l) : c ∉ p := by
  induction l generalizing p with
  | nil =>
    simp only [splitOnChar, List.mem_singleton] at h
    subst h
    simp
  | cons x xs ih =>
    by_cases hx : x = c
    · subst hx
      simp only [splitOnChar, if_pos rfl] at h
      rcases List.mem_cons.mp h with h1 | h2
      · subst h1; simp
      · exact ih h2
    · simp only [splitOnChar, if_neg hx] at h
      cases hs : splitOnChar c xs with
      | nil => exact absurd hs (splitOnChar_ne_nil c xs)
      | cons y ys =>
        rw [hs] at h
        rcases List.mem_cons.mp h with h1 | h2
        · subst h1
          intro hc
          rcases List.mem_cons.mp hc with h3 | hy
          · exact hx h3.symm
          · exact ih (hs ▸ List.mem_cons_self y ys) hy
        · exact ih (hs ▸ List.mem_cons_of_mem y h2)

theorem eq_of_splitOnChar_eq_singleton {c : Char} {l y : List Char}
    (h : splitOnChar c l = [y]) : l = y := by
  induction l generalizing y with
  | nil =>
    simp only [splitOnChar] at h
    exact (List.cons.inj h).1.symm ▸ rfl
  | cons x xs ih =>
    by_cases hx : x = c
    · subst hx
      simp only [splitOnChar, if_pos rfl] at h
      have := (List.cons.inj h).2
      exact absurd this (splitOnChar_ne_nil _ xs)
    · simp only [splitOnChar, if_neg hx] at h
      cases hs : splitOnChar c xs with
      | nil => exact absurd hs (splitOnChar_ne_nil c xs)
      | cons z zs =>
        rw [hs] at h
        have h1 := (List.cons.inj h).1
        have h2 := (List.cons.inj h).2
        subst h2
        have h3 : xs = z := ih (by rw [hs])
        rw [h3, h1]

theorem splitOnChar_joinNL {ls : List (List Char)} (hne : ls ≠ [])
    (hp : ∀ p ∈ ls, '\n' ∉ p) : splitOnChar '\n' (joinNL ls) = ls := by
  induction ls with
  | nil => exact absurd rfl hne
  | cons l ls ih =>
    cases ls with
    | nil =>
      show splitOnChar '\n' l = [l]
      exact splitOnChar_of_not_mem (hp l (List.mem_cons_self _ _))
    | cons l2 ls2 =>
      have h1 : '\n' ∉ l := hp l (List.mem_cons_self _ _)
      have : joinNL (l :: l2 :: ls2) = l ++ '\n' :: joinNL (l2 :: ls2) := rfl
      rw [this, splitOnChar_append h1,
        ih (by simp) (fun p hp2 => hp p (List.mem_cons_of_mem _ hp2))]

/-! ### Lemmas about the notation-block line parser -/

theorem procLine_empty {st : BState} {l : List Char} (he : l.isEmpty = true) :
    procLine st l = .ok st := by
  simp [procLine, he]

theorem headSeg_eq_getD (l : List Char) :
    headSeg l = (splitOnChar ':' l).head?.getD [] := by
  unfold headSeg
  exact List.headD_eq_head? _ _

theorem seg1?_eq_getElem? (l : List Char) : seg1? l = (splitOnChar ':' l)[1]? := by
  unfold seg1?
  exact List.get?_eq_getElem? _ _

theorem procLine_headX {st : BState} {l v : List Char} (hne : ¬ l.isEmpty = true)
    (hh : headSeg l = ['X']) (hv : seg1? l = some v) :
    procLine st l = .ok { st with s_id := some (pyStrip v), s_abc := st.s_abc ++ [l] } := by
  rw [headSeg_eq_getD] at hh
  rw [seg1?_eq_getElem?] at hv
  simp [procLine, hne, hh, hv, Except.map]

theorem procLine_headM {st : BState} {l v : List Char} (hne : ¬ l.isEmpty = true)
    (hh : headSeg l = ['M']) (hv : seg1? l = some v) :
    procLine st l = .ok { st with s_meter := some (pyStrip v), s_abc := st.s_abc ++ [l] } := by
  have hx : (splitOnChar ':' l).head?.getD [] ≠ ['X'] := by
    rw [← headSeg_eq_getD, hh]; decide
  rw [headSeg_eq_getD] at hh
  rw [seg1?_eq_getElem?] at hv
  simp [procLine, hne, hh, hv, hx, Except.map]

theorem procLine_headK {st : BState} {l v : List Char} (hne : ¬ l.isEmpty = true)
    (hh : headSeg l = ['K']) (hv : seg1? l = some v) :
    procLine st l = .ok { st with s_key := some (pyStrip v), s_abc := st.s_abc ++ [l] } := by
  have hx : (splitOnChar ':' l).head?.getD [] ≠ ['X'] := by
    rw [← headSeg_eq_getD, hh]; decide
  have hm : (splitOnChar ':' l).head?.getD [] ≠ ['M'] := by
    rw [← headSeg_eq_getD, hh]; decide
  rw [headSeg_eq_getD] at hh
  rw [seg1?_eq_getElem?] at hv
  simp [procLine, hne, hh, hv, hx, hm, Except.map]

theorem procLine_other {st : BState} {l : List Char} (hne : ¬ l.isEmpty = true)
    (hx : headSeg l ≠ ['X']) (hm : headSeg l ≠ ['M']) (hk : headSeg l ≠ ['K']) :
    procLine st l = .ok { st with s_abc := st.s_abc ++ [l] } := by
  rw [headSeg_eq_getD] at hx hm hk
  simp [procLine, hne, hx, hm, hk, Except.map]

/-- The only exception the line parser raises is `IndexError`, and it raises
it exactly on a line that is bare `X`, `M` or `K` (a header letter with no
colon at all, so that `line.split(':')` has no second element). -/
theorem procLine_error_iff {st : BState} {l : List Char} :
    (∃ e, procLine st l = .error e)
      ↔ (l = ['X'] ∨ l = ['M'] ∨ l = ['K']) := by
  constructor
  · rintro ⟨e, he⟩
    by_cases hne : l.isEmpty = true
    · rw [procLine_empty hne] at he
      exact absurd he (by simp)
    · by_cases hx : headSeg l = ['X']
      · cases hv : seg1? l with
        | some v => rw [procLine_headX hne hx hv] at he; exact absurd he (by simp)
        | none =>
          left
          unfold seg1? at hv
          have hlen : (splitOnChar ':' l).length ≤ 1 := List.get?_eq_none.mp hv
          have hne2 := splitOnChar_ne_nil ':' l
          have hlen1 : (splitOnChar ':' l).length = 1 := by
            have := List.length_pos.mpr hne2
            omega
          rcases List.length_eq_one.mp hlen1 with ⟨y, hy⟩
          have hl : l = y := eq_of_splitOnChar_eq_singleton hy
          unfold headSeg at hx
          rw [hy] at hx
          simp only [List.headD_cons] at hx
          rw [hl, hx]
      · by_cases hm : headSeg l = ['M']
        · cases hv : seg1? l with
          | some v => rw [procLine_headM hne hm hv] at he; exact absurd he (by simp)
          | none =>
            right; left
            unfold seg1? at hv
            have hlen : (splitOnChar ':' l).length ≤ 1 := List.get?_eq_none.mp hv
            have hne2 := splitOnChar_ne_nil ':' l
            have hlen1 : (splitOnChar ':' l).length = 1 := by
              have := List.length_pos.mpr hne2
              omega
            rcases List.length_eq_one.mp hlen1 with ⟨y, hy⟩
            have hl : l = y := eq_of_splitOnChar_eq_singleton hy
            unfold headSeg at hm
            rw [hy] at hm
            simp only [List.headD_cons] at hm
            rw [hl, hm]
        · by_cases hk : headSeg l = ['K']
          · cases hv : seg1? l with
            | some v => rw [procLine_headK hne hk hv] at he; exact absurd he (by simp)
            | none =>
              right; right
              unfold seg1? at hv
              have hlen : (splitOnChar ':' l).length ≤ 1 := List.get?_eq_none.mp hv
              have hne2 := splitOnChar_ne_nil ':' l
              have hlen1 : (splitOnChar ':' l).length = 1 := by
                have := List.length_pos.mpr hne2
                omega
              rcases List.length_eq_one.mp hlen1 with ⟨y, hy⟩
              have hl : l = y := eq_of_splitOnChar_eq_singleton hy
              unfold headSeg at hk
              rw [hy] at hk
              simp only [List.headD_cons] at hk
              rw [hl, hk]
          · rw [procLine_other hne hx hm hk] at he
            exact absurd he (by simp)
  · intro hl
    rcases hl with rfl | rfl | rfl <;> exact ⟨.indexError, rfl⟩

theorem procLine_error_val {st : BState} {l : List Char} {e : PyErr}
    (h : procLine st l = .error e) : e = .indexError := by
  have hbad : l = ['X'] ∨ l = ['M'] ∨ l = ['K'] := procLine_error_iff.mp ⟨e, h⟩
  rcases hbad with rfl | rfl | rfl <;> exact Except.error.inj (h.symm.trans rfl)

/-- A line with no colon at all is its own text before the first colon. -/
theorem eq_headSeg_of_seg1?_none {l : List Char} (hv : seg1? l = none) :
    l = headSeg l := by
  unfold seg1? at hv
  have hlen : (splitOnChar ':' l).length ≤ 1 := List.get?_eq_none.mp hv
  have hne2 := splitOnChar_ne_nil ':' l
  have hlen1 : (splitOnChar ':' l).length = 1 := by
    have := List.length_pos.mpr hne2
    omega
  rcases List.length_eq_one.mp hlen1 with ⟨y, hy⟩
  have hl : l = y := eq_of_splitOnChar_eq_singleton hy
  unfold headSeg
  rw [hy, List.headD_cons, hl]

theorem procLine_bare {st : BState} {l : List Char}
    (h : l = ['X'] ∨ l = ['M'] ∨ l = ['K']) :
    procLine st l = .error .indexError := by
  rcases h with rfl | rfl | rfl <;> rfl

theorem procLine_ok_of_not_bare {st : BState} {l : List Char}
    (h : ¬(l = ['X'] ∨ l = ['M'] ∨ l = ['K'])) : ∃ st1, procLine st l = .ok st1 := by
  cases hp : procLine st l with
  | ok st1 => exact ⟨st1, rfl⟩
  | error e => exact absurd (procLine_error_iff.mp ⟨e, hp⟩) h

theorem procLine_ok_abc {st st1 : BState} {l : List Char}
    (h : procLine st l = .ok st1) :
    st1.s_abc = st.s_abc ++ (if l.isEmpty then [] else [l]) := by
  by_cases hne : l.isEmpty = true
  · rw [procLine_empty hne] at h
    injection h with h1
    subst h1
    simp [hne]
  · by_cases hx : headSeg l = ['X']
    · cases hv : seg1? l with
      | none =>
        have hl : l = ['X'] := by rw [eq_headSeg_of_seg1?_none hv, hx]
        rw [procLine_bare (Or.inl hl)] at h
        exact absurd h (by simp)
      | some v =>
        rw [procLine_headX hne hx hv] at h
        injection h with h1
        subst h1
        simp [hne]
    · by_cases hm : headSeg l = ['M']
      · cases hv : seg1? l with
        | none =>
          have hl : l = ['M'] := by rw [eq_headSeg_of_seg1?_none hv, hm]
          rw [procLine_bare (Or.inr (Or.inl hl))] at h
          exact absurd h (by simp)
        | some v =>
          rw [procLine_headM hne hm hv] at h
          injection h with h1
          subst h1
          simp [hne]
      · by_cases hk : headSeg l = ['K']
        · cases hv : seg1? l with
          | none =>
            have hl : l = ['K'] := by rw [eq_headSeg_of_seg1?_none hv, hk]
            rw [procLine_bare (Or.inr (Or.inr hl))] at h
            exact absurd h (by simp)
          | some v =>
            rw [procLine_headK hne hk hv] at h
            injection h with h1
            subst h1
            simp [hne]
        · rw [procLine_other hne hx hm hk] at h
          injection h with h1
          subst h1
          simp [hne]

theorem procLine_ok_id {st st1 : BState} {l : List Char}
    (h : procLine st l = .ok st1) (hx : headSeg l ≠ ['X']) :
    st1.s_id = st.s_id := by
  by_cases hne : l.isEmpty = true
  · rw [procLine_empty hne] at h
    injection h with h1
    subst h1
    rfl
  · by_cases hm : headSeg l = ['M']
    · cases hv : seg1? l with
      | none =>
        have hl : l = ['M'] := by rw [eq_headSeg_of_seg1?_none hv, hm]
        rw [procLine_bare (Or.inr (Or.inl hl))] at h
        exact absurd h (by simp)
      | some v =>
        rw [procLine_headM hne hm hv] at h
        injection h with h1
        subst h1
        rfl
    · by_cases hk : headSeg l = ['K']
      · cases hv : seg1? l with
        | none =>
          have hl : l = ['K'] := by rw [eq_headSeg_of_seg1?_none hv, hk]
          rw [procLine_bare (Or.inr (Or.inr hl))] at h
          exact absurd h (by simp)
        | some v =>
          rw [procLine_headK hne hk hv] at h
          injection h with h1
          subst h1
          rfl
      · rw [procLine_other hne hx hm hk] at h
        injection h with h1
        subst h1
        rfl

theorem procLine_ok_meter {st st1 : BState} {l : List Char}
    (h : procLine st l = .ok st1) (hm : headSeg l ≠ ['M']) :
    st1.s_meter = st.s_meter := by
  by_cases hne : l.isEmpty = true
  · rw [procLine_empty hne] at h
    injection h with h1
    subst h1
    rfl
  · by_cases hx : headSeg l = ['X']
    · cases hv : seg1? l with
      | none =>
        have hl : l = ['X'] := by rw [eq_headSeg_of_seg1?_none hv, hx]
        rw [procLine_bare (Or.inl hl)] at h
        exact absurd h (by simp)
      | some v =>
        rw [procLine_headX hne hx hv] at h
        injection h with h1
        subst h1
        rfl
    · by_cases hk : headSeg l = ['K']
      · cases hv : seg1? l with
        | none =>
          have hl : l = ['K'] := by rw [eq_headSeg_of_seg1?_none hv, hk]
          rw [procLine_bare (Or.inr (Or.inr hl))] at h
          exact absurd h (by simp)
        | some v =>
          rw [procLine_headK hne hk hv] at h
          injection h with h1
          subst h1
          rfl
      · rw [procLine_other hne hx hm hk] at h
        injection h with h1
        subst h1
        rfl

theorem procLine_ok_key {st st1 : BState} {l : List Char}
    (h : procLine st l = .ok st1) (hk : headSeg l ≠ ['K']) :
    st1.s_key = st.s_key := by
  by_cases hne : l.isEmpty = true
  · rw [procLine_empty hne] at h
    injection h with h1
    subst h1
    rfl
  · by_cases hx : headSeg l = ['X']
    · cases hv : seg1? l with
      | none =>
        have hl : l = ['X'] := by rw [eq_headSeg_of_seg1?_none hv, hx]
        rw [procLine_bare (Or.inl hl)] at h
        exact absurd h (by simp)
      | some v =>
        rw [procLine_headX hne hx hv] at h
        injection h with h1
        subst h1
        rfl
    · by_cases hm : headSeg l = ['M']
      · cases hv : seg1? l with
        | none =>
          have hl : l = ['M'] := by rw [eq_headSeg_of_seg1?_none hv, hm]
          rw [procLine_bare (Or.inr (Or.inl hl))] at h
          exact absurd h (by simp)
        | some v =>
          rw [procLine_headM hne hm hv] at h
          injection h with h1
          subst h1
          rfl
      · rw [procLine_other hne hx hm hk] at h
        injection h with h1
        subst h1
        rfl

theorem runLines_ok_abc : ∀ (lines : List (List Char)) (st st' : BState),
    runLines st lines = .ok st' →
    st'.s_abc = st.s_abc ++ lines.filter (fun l => !l.isEmpty) := by
  intro lines
  induction lines with
  | nil =>
    intro st st' h
    injection h with h1
    subst h1
    simp
  | cons l ls ih =>
    intro st st' h
    simp only [runLines] at h
    cases hp : procLine st l with
    | error e =>
      rw [hp] at h
      exact absurd h (by simp)
    | ok st1 =>
      rw [hp] at h
      have h2 := ih st1 st' h
      rw [h2, procLine_ok_abc hp, List.filter_cons]
      by_cases hne : l.isEmpty = true <;> simp [hne, List.append_assoc]

theorem runLines_id_none : ∀ (lines : List (List Char)) (st st' : BState),
    runLines st lines = .ok st' → (∀ l ∈ lines, headSeg l ≠ ['X']) →
    st'.s_id = st.s_id := by
  intro lines
  induction lines with
  | nil =>
    intro st st' h _
    injection h with h1
    subst h1
    rfl
  | cons l ls ih =>
    intro st st' h hall
    simp only [runLines] at h
    cases hp : procLine st l with
    | error e =>
      rw [hp] at h
      exact absurd h (by simp)
    | ok st1 =>
      rw [hp] at h
      have h1 := procLine_ok_id hp (hall l (List.mem_cons_self _ _))
      have h2 := ih st1 st' h (fun p hp2 => hall p (List.mem_cons_of_mem _ hp2))
      rw [h2, h1]

theorem runLines_meter_none : ∀ (lines : List (List Char)) (st st' : BState),
    runLines st lines = .ok st' → (∀ l ∈ lines, headSeg l ≠ ['M']) →
    st'.s_meter = st.s_meter := by
  intro lines
  induction lines with
  | nil =>
    intro st st' h _
    injection h with h1
    subst h1
    rfl
  | cons l ls ih =>
    intro st st' h hall
    simp only [runLines] at h
    cases hp : procLine st l with
    | error e =>
      rw [hp] at h
      exact absurd h (by simp)
    | ok st1 =>
      rw [hp] at h
      have h1 := procLine_ok_meter hp (hall l (List.mem_cons_self _ _))
      have h2 := ih st1 st' h (fun p hp2 => hall p (List.mem_cons_of_mem _ hp2))
      rw [h2, h1]

theorem runLines_key_none : ∀ (lines : List (List Char)) (st st' : BState),
    runLines st lines = .ok st' → (∀ l ∈ lines, headSeg l ≠ ['K']) →
    st'.s_key = st.s_key := by
  intro lines
  induction lines with
  | nil =>
    intro st st' h _
    injection h with h1
    subst h1
    rfl
  | cons l ls ih =>
    intro st st' h hall
    simp only [runLines] at h
    cases hp : procLine st l with
    | error e =>
      rw [hp] at h
      exact absurd h (by simp)
    | ok st1 =>
      rw [hp] at h
      have h1 := procLine_ok_key hp (hall l (List.mem_cons_self _ _))
      have h2 := ih st1 st' h (fun p hp2 => hall p (List.mem_cons_of_mem _ hp2))
      rw [h2, h1]

theorem runLines_ok_of_good : ∀ (lines : List (List Char)) (st : BState),
    (∀ l ∈ lines, ¬(l = ['X'] ∨ l = ['M'] ∨ l = ['K'])) →
    ∃ st', runLines st lines = .ok st' := by
  intro lines
  induction lines with
  | nil => exact fun st _ => ⟨st, rfl⟩
  | cons l ls ih =>
    intro st hall
    rcases @procLine_ok_of_not_bare st l (hall l (List.mem_cons_self _ _)) with
      ⟨st1, hp⟩
    rcases ih st1 (fun p hp2 => hall p (List.mem_cons_of_mem _ hp2)) with ⟨st', hr⟩
    refine ⟨st', ?_⟩
    simp only [runLines, hp]
    exact hr

theorem runLines_error_of_bad : ∀ (lines : List (List Char)) (st : BState)
    (l : List Char), l ∈ lines → (l = ['X'] ∨ l = ['M'] ∨ l = ['K']) →
    runLines st lines = .error .indexError := by
  intro lines
  induction lines with
  | nil =>
    intro st l h
    exact absurd h (by simp)
  | cons l0 ls ih =>
    intro st l hmem hbad
    rcases List.mem_cons.mp hmem with rfl | h2
    · simp only [runLines, @procLine_bare st l hbad]
    · cases hp : procLine st l0 with
      | error e =>
        have he := procLine_error_val hp
        subst he
        simp only [runLines, hp]
      | ok st1 =>
        simp only [runLines, hp]
        exact ih st1 l h2 hbad

/-- Unpack a successful `parseBlock` into its final loop state. -/
theorem parseBlock_run {text : List Char} {s : TuneSetting}
    (h : parseBlock text = .ok s) :
    ∃ st', runLines ⟨none, none, none, []⟩ (splitOnChar '\n' text) = .ok st'
      ∧ s = ⟨st'.s_id, st'.s_meter, st'.s_key, joinNL st'.s_abc⟩ := by
  unfold parseBlock at h
  cases hr : runLines ⟨none, none, none, []⟩ (splitOnChar '\n' text) with
  | error e =>
    rw [hr] at h
    exact absurd h (by simp)
  | ok st' =>
    rw [hr] at h
    injection h with h1
    exact ⟨st', rfl, h1.symm⟩

theorem parseBlock_ok_iff {text : List Char} :
    (∃ s, parseBlock text = .ok s)
      ↔ ∀ l ∈ splitOnChar '\n' text, ¬(l = ['X'] ∨ l = ['M'] ∨ l = ['K']) := by
  constructor
  · rintro ⟨s, hs⟩ l hl hbad
    rcases parseBlock_run hs with ⟨st', hr, _⟩
    rw [runLines_error_of_bad _ _ l hl hbad] at hr
    exact Except.noConfusion hr
  · intro hall
    rcases runLines_ok_of_good (splitOnChar '\n' text) ⟨none, none, none, []⟩ hall with
      ⟨st', hr⟩
    refine ⟨⟨st'.s_id, st'.s_meter, st'.s_key, joinNL st'.s_abc⟩, ?_⟩
    unfold parseBlock
    rw [hr]

theorem runLines_error_val : ∀ (lines : List (List Char)) (st : BState) (e : PyErr),
    runLines st lines = .error e → e = .indexError := by
  intro lines
  induction lines with
  | nil =>
    intro st e h
    exact absurd h (by simp [runLines])
  | cons l ls ih =>
    intro st e h
    simp only [runLines] at h
    cases hp : procLine st l with
    | error e2 =>
      rw [hp] at h
      have h2 := procLine_error_val hp
      subst h2
      exact (Except.error.inj h).symm
    | ok st1 =>
      rw [hp] at h
      exact ih st1 e h

theorem parseBlock_error_val {text : List Char} {e : PyErr}
    (h : parseBlock text = .error e) : e = .indexError := by
  unfold parseBlock at h
  cases hr : runLines ⟨none, none, none, []⟩ (splitOnChar '\n' text) with
  | error e2 =>
    rw [hr] at h
    have h2 := runLines_error_val _ _ _ hr
    subst h2
    exact (Except.error.inj h).symm
  | ok st' =>
    rw [hr] at h
    exact absurd h (by simp)

theorem get_tune_settings_ok_iff {blocks : List (List Char)} :
    (∃ ss, get_tune_settings blocks = .ok ss)
      ↔ ∀ b ∈ blocks, ∀ l ∈ splitOnChar '\n' b,
          ¬(l = ['X'] ∨ l = ['M'] ∨ l = ['K']) := by
  induction blocks with
  | nil => simp [get_tune_settings]
  | cons b bs ih =>
    constructor
    · rintro ⟨ss, hss⟩ b2 hb2 l hl hbad
      simp only [get_tune_settings] at hss
      cases hpb : parseBlock b with
      | error e =>
        rw [hpb] at hss
        exact absurd hss (by simp)
      | ok s =>
        rw [hpb] at hss
        cases hrest : get_tune_settings bs with
        | error e =>
          rw [hrest] at hss
          exact absurd hss (by simp)
        | ok ss2 =>
          rcases List.mem_cons.mp hb2 with rfl | hmem
          · exact absurd hbad (parseBlock_ok_iff.mp ⟨s, hpb⟩ l hl)
          · exact absurd hbad ((ih.mp ⟨ss2, hrest⟩) b2 hmem l hl)
    · intro hall
      rcases parseBlock_ok_iff.mpr (hall b (List.mem_cons_self _ _)) with ⟨s, hs⟩
      rcases ih.mpr (fun b2 h2 => hall b2 (List.mem_cons_of_mem _ h2)) with ⟨ss, hss⟩
      exact ⟨s :: ss, by simp only [get_tune_settings, hs, hss]⟩

theorem get_tune_settings_error_of_bad {blocks : List (List Char)} {b l : List Char}
    (hb : b ∈ blocks) (hl : l ∈ splitOnChar '\n' b)
    (hbad : l = ['X'] ∨ l = ['M'] ∨ l = ['K']) :
    get_tune_settings blocks = .error .indexError := by
  induction blocks with
  | nil => exact absurd hb (by simp)
  | cons b0 bs ih =>
    rcases List.mem_cons.mp hb with rfl | hmem
    · have hpb : parseBlock b = .error .indexError := by
        unfold parseBlock
        rw [runLines_error_of_bad _ _ l hl hbad]
      simp only [get_tune_settings, hpb]
    · cases hpb : parseBlock b0 with
      | error e =>
        have h2 := parseBlock_error_val hpb
        subst h2
        simp only [get_tune_settings, hpb]
      | ok s =>
        simp only [get_tune_settings, hpb, ih hmem]

/-! ### Lemmas about the zip-based tune extraction -/

theorem optBindNone {α β : Type} (x : Option α) :
    (x.bind fun _ => (none : Option β)) = none := by
  cases x <;> rfl

theorem get_popular_tunes_get? : ∀ (ns ids ts : List (List Char)) (i : Nat),
    (get_popular_tunes ns ids ts).get? i
      = (ns.get? i).bind fun n => (ids.get? i).bind fun a =>
          (ts.get? i).map fun t => (⟨n, a, t⟩ : Tune) := by
  intro ns
  induction ns with
  | nil => intro ids ts i; simp [get_popular_tunes]
  | cons n ns ih =>
    intro ids ts i
    cases ids with
    | nil =>
      simp [get_popular_tunes, optBindNone]
    | cons a ids =>
      cases ts with
      | nil =>
        simp [get_popular_tunes, optBindNone]
      | cons t ts =>
        cases i with
        | zero => simp [get_popular_tunes]
        | succ j => simpa [get_popular_tunes] using ih ids ts j

theorem get_search_tunes_get? : ∀ (ns ids ts : List (List Char)) (i : Nat),
    (get_search_tunes ns ids ts).get? i
      = (ns.get? i).bind fun n => (ids.get? i).bind fun a =>
          (ts.get? i).map fun t => (⟨n, a, pyStripChar '\n' t⟩ : Tune) := by
  intro ns
  induction ns with
  | nil => intro ids ts i; simp [get_search_tunes]
  | cons n ns ih =>
    intro ids ts i
    cases ids with
    | nil =>
      simp [get_search_tunes, optBindNone]
    | cons a ids =>
      cases ts with
      | nil =>
        simp [get_search_tunes, optBindNone]
      | cons t ts =>
        cases i with
        | zero => simp [get_search_tunes]
        | succ j => simpa [get_search_tunes] using ih ids ts j

theorem get_popular_tunes_length (ns ids ts : List (List Char)) :
    (get_popular_tunes ns ids ts).length = min ns.length (min ids.length ts.length) := by
  simp [get_popular_tunes]

theorem get_search_tunes_length (ns ids ts : List (List Char)) :
    (get_search_tunes ns ids ts).length = min ns.length (min ids.length ts.length) := by
  simp [get_search_tunes]

/-! ### Lemmas about reply parsing and selection -/

theorem digitsToNat?_digits {l : List Char} {n : Nat} (h : digitsToNat? l = some n) :
    ∀ c ∈ l, c.isDigit = true := by
  unfold digitsToNat? at h
  split at h
  · rename_i hcond
    intro c hc
    exact List.all_eq_true.mp hcond.2 c hc
  · exact absurd h (by simp)

theorem pyInt?_no_colon {ks : List Char} {k : Int} (h : pyInt? ks = some k) :
    ':' ∉ ks := by
  intro hmem
  unfold pyInt? at h
  split at h
  · rename_i rest
    rcases List.mem_cons.mp hmem with h1 | h2
    · exact absurd h1 (by decide)
    · cases hd : digitsToNat? rest with
      | none => rw [hd] at h; exact absurd h (by simp)
      | some n => exact absurd (digitsToNat?_digits hd ':' h2) (by decide)
  · rename_i rest
    rcases List.mem_cons.mp hmem with h1 | h2
    · exact absurd h1 (by decide)
    · cases hd : digitsToNat? rest with
      | none => rw [hd] at h; exact absurd h (by simp)
      | some n => exact absurd (digitsToNat?_digits hd ':' h2) (by decide)
  · cases hd : digitsToNat? ks with
    | none => rw [hd] at h; exact absurd h (by simp)
    | some n => exact absurd (digitsToNat?_digits hd ':' hmem) (by decide)

theorem select_tune_reply {tunes : List Tune} {ks text : List Char} {k : Int}
    (hk : pyInt? ks = some k) :
    select_tune tunes 0 (ks ++ ':' :: text)
      = if k < 0 then .requery (text.takeWhile (fun c => c != ':'))
        else
          match tunes.get? k.toNat with
          | none => .indexError
          | some t => .selected t := by
  have hns : ':' ∉ ks := pyInt?_no_colon hk
  have hsplit := splitOnChar_append hns text
  unfold select_tune
  rw [if_neg (by simp)]
  simp only [hsplit, List.headD_cons, hk]
  by_cases hneg : k < 0
  · rw [if_pos hneg, if_pos hneg, List.get?_cons_succ, splitOnChar_get?_zero]
  · rw [if_neg hneg, if_neg hneg]

theorem select_setting_reply {settings : List TuneSetting} {ks text : List Char}
    {k : Int} (hk : pyInt? ks = some k) :
    select_setting settings 0 (ks ++ ':' :: text)
      = if k < 0 then .noSetting
        else
          match settings.get? k.toNat with
          | none => .indexError
          | some t => .selected t := by
  have hns : ':' ∉ ks := pyInt?_no_colon hk
  have hsplit := splitOnChar_append hns text
  unfold select_setting
  rw [if_neg (by simp)]
  simp only [hsplit, List.headD_cons, hk]

/-! ### The claims -/

/-- C1 (counterexample): the claim says every field of the i-th record equals
the i-th element of the corresponding query result for both list extractors;
but `get_search_tunes` strips newline characters from the type field, so with
equal-length query results whose type entry is `"reel\n"` the extracted type
is `"reel"`, not the raw query element. -/
theorem claim_C1_counterexample :
    ([chars "a"].length = 1 ∧ [chars "1"].length = 1 ∧ [chars "reel\n"].length = 1)
    ∧ (get_search_tunes [chars "a"] [chars "1"] [chars "reel\n"]).get? 0
        = some ⟨chars "a", chars "1", chars "reel"⟩
    ∧ chars "reel" ≠ chars "reel\n" := by decide

/-- C1 (amended): when the three per-field structural query results have equal
length N, both `get_popular_tunes` and `get_search_tunes` return exactly N
records in original document order; the i-th record of `get_popular_tunes`
carries exactly the i-th name, id and type query elements, and the i-th
record of `get_search_tunes` carries the i-th name and id query elements
while its type is the i-th type query element with leading and trailing
newline characters stripped. -/
theorem claim_C1 (ns ids ts : List (List Char)) (N : Nat)
    (h1 : ns.length = N) (h2 : ids.length = N) (h3 : ts.length = N) :
    (get_popular_tunes ns ids ts).length = N
    ∧ (get_search_tunes ns ids ts).length = N
    ∧ (∀ i, i < N → ∃ n a t, ns.get? i = some n ∧ ids.get? i = some a
        ∧ ts.get? i = some t
        ∧ (get_popular_tunes ns ids ts).get? i = some ⟨n, a, t⟩
        ∧ (get_search_tunes ns ids ts).get? i = some ⟨n, a, pyStripChar '\n' t⟩) := by
  refine ⟨?_, ?_, ?_⟩
  · rw [get_popular_tunes_length, h1, h2, h3]
    simp
  · rw [get_search_tunes_length, h1, h2, h3]
    simp
  · intro i hi
    cases hgn : ns.get? i with
    | none => exact absurd (List.get?_eq_none.mp hgn) (by omega)
    | some n =>
      cases hga : ids.get? i with
      | none => exact absurd (List.get?_eq_none.mp hga) (by omega)
      | some a =>
        cases hgt : ts.get? i with
        | none => exact absurd (List.get?_eq_none.mp hgt) (by omega)
        | some t =>
          refine ⟨n, a, t, rfl, rfl, rfl, ?_, ?_⟩
          · rw [get_popular_tunes_get?, hgn, hga, hgt]
            rfl
          · rw [get_search_tunes_get?, hgn, hga, hgt]
            rfl

/-- C1 (witness): the amended claim instantiated on a concrete one-element
page. -/
theorem claim_C1_witness :
    (get_popular_tunes [chars "a"] [chars "5"] [chars "reel"]).length = 1 :=
  (claim_C1 [chars "a"] [chars "5"] [chars "reel"] 1 rfl rfl rfl).1

/-- C2 (counterexample): the claim says a line whose text before the first
colon is `X` sets the id to the text after the colon; on the line `X:1:2`
the text after the first colon is `1:2`, but `line.split(':')[1]` yields only
`1`, the segment between the first and second colon. -/
theorem claim_C2_counterexample :
    get_tune_settings [chars "X:1:2"]
      = .ok [⟨some (chars "1"), none, none, chars "X:1:2"⟩]
    ∧ chars "1" ≠ chars "1:2" := by decide

/-- C2 (amended): scanning a notation block line by line, a non-empty line
whose text before the first colon is `X` sets the setting id to the text
between the first and the second colon (the whole remainder when the line
has a single colon), trimmed of surrounding whitespace, and likewise `M`
sets the meter and `K` the key; each field remains `None` when no line of
the block has that header; and the block `X:1 / M:4/4 / K:Edor / A B c d|`
yields exactly `TuneSetting(id="1", meter="4/4", key="Edor")`. -/
theorem claim_C2 :
    (∀ (st : BState) (l v : List Char), ¬ l.isEmpty = true → headSeg l = ['X'] →
      seg1? l = some v →
      procLine st l = .ok { st with s_id := some (pyStrip v), s_abc := st.s_abc ++ [l] })
    ∧ (∀ (st : BState) (l v : List Char), ¬ l.isEmpty = true → headSeg l = ['M'] →
      seg1? l = some v →
      procLine st l = .ok { st with s_meter := some (pyStrip v), s_abc := st.s_abc ++ [l] })
    ∧ (∀ (st : BState) (l v : List Char), ¬ l.isEmpty = true → headSeg l = ['K'] →
      seg1? l = some v →
      procLine st l = .ok { st with s_key := some (pyStrip v), s_abc := st.s_abc ++ [l] })
    ∧ (∀ (text : List Char) (s : TuneSetting), parseBlock text = .ok s →
      ((∀ l ∈ splitOnChar '\n' text, headSeg l ≠ ['X']) → s.id = none)
      ∧ ((∀ l ∈ splitOnChar '\n' text, headSeg l ≠ ['M']) → s.meter = none)
      ∧ ((∀ l ∈ splitOnChar '\n' text, headSeg l ≠ ['K']) → s.key = none))
    ∧ get_tune_settings [chars "X:1\nM:4/4\nK:Edor\nA B c d|"]
        = .ok [⟨some (chars "1"), some (chars "4/4"), some (chars "Edor"),
               chars "X:1\nM:4/4\nK:Edor\nA B c d|"⟩] := by
  refine ⟨fun st l v hne hh hv => procLine_headX hne hh hv,
          fun st l v hne hh hv => procLine_headM hne hh hv,
          fun st l v hne hh hv => procLine_headK hne hh hv,
          ?_, by decide⟩
  intro text s hs
  rcases parseBlock_run hs with ⟨st', hr, hseq⟩
  subst hseq
  exact ⟨fun hall => runLines_id_none _ _ _ hr hall,
         fun hall => runLines_meter_none _ _ _ hr hall,
         fun hall => runLines_key_none _ _ _ hr hall⟩

/-- C2 (witness): the per-line id assignment instantiated on the concrete
line `X: 12 `, whose value is trimmed to `12`. -/
theorem claim_C2_witness :
    procLine ⟨none, none, none, []⟩ (chars "X: 12 ")
      = .ok ⟨some (chars "12"), none, none, [chars "X: 12 "]⟩ :=
  claim_C2.1 ⟨none, none, none, []⟩ (chars "X: 12 ") (chars " 12 ")
    (by decide) (by decide) (by decide)

/-- C3: on picker exit code 0 with reply `k:text`, both selection functions
return exactly the k-th candidate of the rendered list when 0 ≤ k < N; an
out-of-range k ≥ N raises `IndexError` instead of silently returning a
record; and a negative k is never used as a (wrap-around) list index: the
result is then a re-query (tunes) or the fatal setting error, independent of
the list. -/
theorem claim_C3 (tunes : List Tune) (settings : List TuneSetting)
    (ks text : List Char) (k : Int) (hk : pyInt? ks = some k) :
    (∀ hi : k.toNat < tunes.length, 0 ≤ k →
      select_tune tunes 0 (ks ++ ':' :: text) = .selected (tunes.get ⟨k.toNat, hi⟩))
    ∧ (∀ hi : k.toNat < settings.length, 0 ≤ k →
      select_setting settings 0 (ks ++ ':' :: text)
        = .selected (settings.get ⟨k.toNat, hi⟩))
    ∧ (0 ≤ k → tunes.length ≤ k.toNat →
      select_tune tunes 0 (ks ++ ':' :: text) = .indexError)
    ∧ (0 ≤ k → settings.length ≤ k.toNat →
      select_setting settings 0 (ks ++ ':' :: text) = .indexError)
    ∧ (k < 0 →
      select_tune tunes 0 (ks ++ ':' :: text)
          = .requery (text.takeWhile (fun c => c != ':'))
      ∧ select_setting settings 0 (ks ++ ':' :: text) = .noSetting) := by
  refine ⟨?_, ?_, ?_, ?_, ?_⟩
  · intro hi hpos
    rw [select_tune_reply hk, if_neg (by omega), List.get?_eq_get hi]
  · intro hi hpos
    rw [select_setting_reply hk, if_neg (by omega), List.get?_eq_get hi]
  · intro hpos hlen
    rw [select_tune_reply hk, if_neg (by omega), List.get?_eq_none.mpr hlen]
  · intro hpos hlen
    rw [select_setting_reply hk, if_neg (by omega), List.get?_eq_none.mpr hlen]
  · intro hneg
    constructor
    · rw [select_tune_reply hk, if_pos hneg]
    · rw [select_setting_reply hk, if_pos hneg]

/-- C3 (witness): end-to-end scenario A instantiated: the picker replies
`1:Drowsy Maggie` on a two-tune list and the second tune (id 23) is
selected. -/
theorem claim_C3_witness :
    select_tune [⟨chars "Cooleys", chars "50", chars "reel"⟩,
                 ⟨chars "Drowsy Maggie", chars "23", chars "reel"⟩]
        0 (chars "1" ++ ':' :: chars "Drowsy Maggie")
      = .selected ⟨chars "Drowsy Maggie", chars "23", chars "reel"⟩ :=
  (claim_C3 [⟨chars "Cooleys", chars "50", chars "reel"⟩,
             ⟨chars "Drowsy Maggie", chars "23", chars "reel"⟩] []
      (chars "1") (chars "Drowsy Maggie") 1 (by decide)).1 (by decide) (by decide)

/-- C4 (counterexample): the claim says the re-query signal carries exactly
the text after the colon; on the reply `-1:a:b` the text after the first
colon is `a:b`, but `stdout.split(":")[1]` carries only `a`. -/
theorem claim_C4_counterexample :
    select_tune [] 0 (chars "-1:a:b") = .requery (chars "a")
    ∧ chars "a" ≠ chars "a:b" := by decide

/-- C4 (amended): on a picker reply `k:text` with negative k and exit code 0,
`select_tune` raises `SearchException` carrying the text after the first
colon up to the next colon (exactly the text after the colon whenever the
typed text has no colon of its own), the search loop re-fetches with that
carried text — a second iteration behaves exactly as an iteration started at
the new query, so the original query is dropped — and `select_setting`
instead fails with the fatal no-setting-selected `ValueError`. -/
theorem claim_C4 (tunes : List Tune) (settings : List TuneSetting)
    (env : List Char → List (List Char) × List (List Char) × List (List Char))
    (q ks text : List Char) (k rc2 : Int) (out2 : List Char)
    (hk : pyInt? ks = some k) (hneg : k < 0) :
    select_tune tunes 0 (ks ++ ':' :: text)
        = .requery (text.takeWhile (fun c => c != ':'))
    ∧ select_setting settings 0 (ks ++ ':' :: text) = .noSetting
    ∧ search_iter2 env q 0 (ks ++ ':' :: text) rc2 out2
        = search_iter env (text.takeWhile (fun c => c != ':')) rc2 out2 := by
  refine ⟨?_, ?_, ?_⟩
  · rw [select_tune_reply hk, if_pos hneg]
  · rw [select_setting_reply hk, if_pos hneg]
  · have h := @select_tune_reply
      (get_search_tunes (env q).1 (env q).2.1 (env q).2.2) ks text k hk
    rw [if_pos hneg] at h
    have hiter : search_iter env q 0 (ks ++ ':' :: text)
        = .again (text.takeWhile (fun c => c != ':')) := by
      unfold search_iter
      rw [h]
    unfold search_iter2
    rw [hiter]

/-- C4 (witness): end-to-end scenario C instantiated: the picker replies
`-1:new query` during tune selection and the re-query signal carries
`new query`. -/
theorem claim_C4_witness :
    select_tune [] 0 (chars "-1" ++ ':' :: chars "new query")
      = .requery (chars "new query") :=
  (claim_C4 [] [] (fun _ => ([], [], [])) [] (chars "-1") (chars "new query")
    (-1) 0 [] (by decide) (by decide)).1

/-- C5 (counterexample): the claim says `RemoteFetchError` is raised if and
only if the status is non-2xx; but `raise_for_status` raises only for 4xx
and 5xx, so the non-2xx status 304 fetches successfully. -/
theorem claim_C5_counterexample :
    get_search_tunes_fetched 304 [] [] [] = .ok []
    ∧ ¬(200 ≤ 304 ∧ 304 < 300) := by decide

/-- C5 (amended): each fetch operation raises the fetch error exactly when
the HTTP status is a 4xx or 5xx code (informational, success and redirect
statuses all pass); on failure the error is produced before any extraction —
even an extraction that would itself raise, as the 404 on a bare-`X` block
shows — and on success the query results are handed to the extractor
unchanged. -/
theorem claim_C5 (status : Nat) (ns ids ts blocks : List (List Char)) :
    (get_popular_tunes_fetched status ns ids ts
      = if 400 ≤ status ∧ status < 600 then .error (.httpError status)
        else .ok (get_popular_tunes ns ids ts))
    ∧ (get_search_tunes_fetched status ns ids ts
      = if 400 ≤ status ∧ status < 600 then .error (.httpError status)
        else .ok (get_search_tunes ns ids ts))
    ∧ (get_tune_settings_fetched status blocks
      = if 400 ≤ status ∧ status < 600 then .error (.httpError status)
        else get_tune_settings blocks)
    ∧ get_tune_settings_fetched 404 [chars "X"] = .error (.httpError 404) := by
  refine ⟨?_, ?_, ?_, by decide⟩ <;>
    by_cases hc : 400 ≤ status ∧ status < 600 <;>
      simp [get_popular_tunes_fetched, get_search_tunes_fetched,
            get_tune_settings_fetched, raise_for_status, hc]

/-- C6 (counterexample): the claim says the notation field re-split by
newline contains every raw line of the block; the block `X:1\n\nA` has the
empty string as its second raw line, but the notation text of its setting is
`X:1\nA`, whose re-split does not contain the empty line. -/
theorem claim_C6_counterexample :
    get_tune_settings [chars "X:1\n\nA"]
      = .ok [⟨some (chars "1"), none, none, chars "X:1\nA"⟩]
    ∧ ([] : List Char) ∈ splitOnChar '\n' (chars "X:1\n\nA")
    ∧ ([] : List Char) ∉ splitOnChar '\n' (chars "X:1\nA") := by decide

/-- C6 (amended): for every notation block, the produced setting's notation
(abc) text, re-split by newline, contains every non-empty raw line of the
block — in particular each header line that was parsed to fill id, meter or
key — unmodified and in original order (the non-empty raw lines form a
sublist of the re-split notation, and empty lines are the only ones
dropped); the parsed fields are a lossy view, never a replacement for lines
removed from the notation. -/
theorem claim_C6 (text : List Char) (s : TuneSetting)
    (h : parseBlock text = .ok s) :
    List.Sublist ((splitOnChar '\n' text).filter (fun l => !l.isEmpty))
      (splitOnChar '\n' s.abc) := by
  rcases parseBlock_run h with ⟨st', hr, hseq⟩
  subst hseq
  have habc : st'.s_abc = (splitOnChar '\n' text).filter (fun l => !l.isEmpty) := by
    have h2 := runLines_ok_abc _ _ _ hr
    simpa using h2
  show List.Sublist ((splitOnChar '\n' text).filter (fun l => !l.isEmpty))
    (splitOnChar '\n' (joinNL st'.s_abc))
  by_cases hsa : st'.s_abc = []
  · rw [← habc, hsa]
    exact List.nil_sublist _
  · have hmem : ∀ p ∈ st'.s_abc, '\n' ∉ p := by
      intro p hp
      rw [habc] at hp
      exact not_mem_of_mem_splitOnChar (List.mem_of_mem_filter hp)
    rw [splitOnChar_joinNL hsa hmem, ← habc]

/-- C6 (witness): the amended claim instantiated on the block `X:1\nabc`. -/
theorem claim_C6_witness :
    List.Sublist ((splitOnChar '\n' (chars "X:1\nabc")).filter (fun l => !l.isEmpty))
      (splitOnChar '\n'
        (TuneSetting.mk (some (chars "1")) none none (chars "X:1\nabc")).abc) :=
  claim_C6 (chars "X:1\nabc") ⟨some (chars "1"), none, none, chars "X:1\nabc"⟩
    (by decide)

/-- C7: whenever the picker exits with a non-zero code C, both selection
steps propagate exactly C as the program's exit (the model's `exited C`
outcome), whatever the candidate list and picker stdout were, and no
selection result is produced. -/
theorem claim_C7 (tunes : List Tune) (settings : List TuneSetting) (c : Int)
    (stdout : List Char) (h : c ≠ 0) :
    select_tune tunes c stdout = .exited c
    ∧ select_setting settings c stdout = .exited c
    ∧ (∀ t, select_tune tunes c stdout ≠ .selected t)
    ∧ (∀ s, select_setting settings c stdout ≠ .selected s) := by
  have h1 : select_tune tunes c stdout = .exited c := by
    unfold select_tune
    rw [if_pos h]
  have h2 : select_setting settings c stdout = .exited c := by
    unfold select_setting
    rw [if_pos h]
  refine ⟨h1, h2, fun t ht => ?_, fun s hs => ?_⟩
  · rw [h1] at ht
    exact SelResult.noConfusion ht
  · rw [h2] at hs
    exact SelResult.noConfusion hs

/-- C7 (witness): a picker cancelled with exit code 1 terminates both steps
with exit code 1. -/
theorem claim_C7_witness :
    select_tune [] 1 [] = .exited 1 ∧ select_setting [] 1 [] = .exited 1 :=
  ⟨(claim_C7 [] [] 1 [] (by decide)).1, (claim_C7 [] [] 1 [] (by decide)).2.1⟩

/-- C8 (counterexample): the claim says the extraction and line-parsing code
never raises; but a notation block consisting of the bare line `X` (a header
letter with no colon) makes `line.split(':')[1]` raise `IndexError`. -/
theorem claim_C8_counterexample :
    get_tune_settings [chars "X"] = .error .indexError := by decide

/-- C8 (amended): the zip-based extractors never raise — empty query results
degrade to the empty record list — and `get_tune_settings` returns normally
exactly when no line of any block is bare `X`, `M` or `K`; such a bare
header line (the letter with no colon at all) is the only input on which the
line parser raises, and then the whole extraction raises `IndexError`. -/
theorem claim_C8 (blocks : List (List Char)) :
    get_popular_tunes [] [] [] = []
    ∧ get_search_tunes [] [] [] = []
    ∧ ((∀ b ∈ blocks, ∀ l ∈ splitOnChar '\n' b,
          ¬(l = ['X'] ∨ l = ['M'] ∨ l = ['K']))
        → ∃ ss, get_tune_settings blocks = .ok ss)
    ∧ (∀ b l, b ∈ blocks → l ∈ splitOnChar '\n' b →
        (l = ['X'] ∨ l = ['M'] ∨ l = ['K'])
        → get_tune_settings blocks = .error .indexError) :=
  ⟨rfl, rfl, fun h => get_tune_settings_ok_iff.mpr h,
   fun _ _ hb hl hbad => get_tune_settings_error_of_bad hb hl hbad⟩

/-- C8 (witness): a well-formed block parses without any exception. -/
theorem claim_C8_witness :
    ∃ ss, get_tune_settings [chars "K:G\nabc"] = .ok ss :=
  (claim_C8 [chars "K:G\nabc"]).2.2.1 (by decide)

/-- C9 (counterexample): the claim lists eight effects ending `... wait first
converter, wait second converter, close viewer input`; the real trace also
closes the second converter's input (inside its `communicate()`) before
waiting on it, so the trace is not exactly the claimed sequence. -/
theorem claim_C9_counterexample :
    display_abc (chars "x")
      ≠ [Ev.spawn 0 PDF_VIEWER_CMD none,
         Ev.spawn 1 PS2PDF_CMD (some 0),
         Ev.spawn 2 ABC2PS_CMD (some 1),
         Ev.write 2 (utf8Encode (chars "x")),
         Ev.closeStdin 2,
         Ev.wait 2,
         Ev.wait 1,
         Ev.closeStdin 0] := by decide

/-- C9 (amended): for every notation text, `display_abc` performs exactly
this effect sequence: spawn the viewer; spawn the ps-to-pdf converter with
its output connected to the viewer's input; spawn the abc-to-ps converter
with its output connected to that converter's input; write the text
UTF-8-encoded to the abc-to-ps converter's input, close that input, and wait
for it; then close the ps-to-pdf converter's input (performed by its
`communicate()` call) and wait for it; and finally close the viewer's input
explicitly. -/
theorem claim_C9 (abc : List Char) :
    display_abc abc
      = [Ev.spawn 0 PDF_VIEWER_CMD none,
         Ev.spawn 1 PS2PDF_CMD (some 0),
         Ev.spawn 2 ABC2PS_CMD (some 1),
         Ev.write 2 (utf8Encode abc),
         Ev.closeStdin 2,
         Ev.wait 2,
         Ev.closeStdin 1,
         Ev.wait 1,
         Ev.closeStdin 0] := rfl

/-- C10: when the three per-field query results have unequal lengths, both
extractors neither raise nor pad: the result has exactly
`min (len names) (min (len ids) (len types))` records, the i-th record pairs
the i-th elements of the three sequences positionally (the search extractor
newline-stripping the type), and trailing elements of the longer sequences
are silently discarded (indices past the minimum yield no record). -/
theorem claim_C10 (ns ids ts : List (List Char)) :
    (get_popular_tunes ns ids ts).length = min ns.length (min ids.length ts.length)
    ∧ (get_search_tunes ns ids ts).length = min ns.length (min ids.length ts.length)
    ∧ (∀ i, (get_popular_tunes ns ids ts).get? i
        = (ns.get? i).bind fun n => (ids.get? i).bind fun a =>
            (ts.get? i).map fun t => (⟨n, a, t⟩ : Tune))
    ∧ (∀ i, (get_search_tunes ns ids ts).get? i
        = (ns.get? i).bind fun n => (ids.get? i).bind fun a =>
            (ts.get? i).map fun t => (⟨n, a, pyStripChar '\n' t⟩ : Tune)) :=
  ⟨get_popular_tunes_length ns ids ts, get_search_tunes_length ns ids ts,
   get_popular_tunes_get? ns ids ts, get_search_tunes_get? ns ids ts⟩

end Tunes
